import Mathlib

/-
Shallow embedding of the System-F interpreter from src/main.rs
(hnrbs/system-f): the type grammar, the expression grammar, the
substitution function `replace_type`, the type checker `infer` and the
big-step evaluator `eval`.

Rust panics are modelled as explicit error results; the possibly
divergent recursion of `eval` is modelled with an explicit fuel
parameter (running out of fuel is a distinct `timeout` outcome, never
confused with a genuine runtime failure).  The persistent `im::HashMap`
environments are modelled as association lists whose `update` prepends a
binding and whose lookup returns the most recent binding, which is
observationally the map behaviour the interpreter relies on.
-/

/-- The Rust `Type` enum (named `Ty` here because `Type` is reserved):
`Closure` (function types), `Forall`, `Var`, `Int` and `Str`. -/
inductive Ty where
  | Closure (param : Ty) (body : Ty)
  | Forall (param : String) (body : Ty)
  | Var (v : String)
  | Int
  | Str
deriving DecidableEq, Repr

/-- The Rust `Expr` enum.  Field order of `TypeApp`/`App` follows the
source (`arg` before `abs`). -/
inductive Expr where
  | Int (i : Int)
  | Var (name : String)
  | Abs (param : String) (paramType : Ty) (body : Expr)
  | TypeAbs (param : String) (body : Expr)
  | TypeApp (arg : Ty) (abs : Expr)
  | App (arg : Expr) (abs : Expr)
deriving DecidableEq, Repr

/-- Lookup in a persistent association-list environment: the most
recently added binding for a key wins, older bindings are shadowed
(the observable behaviour of `im::HashMap::get` after `update`). -/
def ctxLookup {α : Type} : List (String × α) → String → Option α
  | [], _ => none
  | (k, v) :: rest, x => if k = x then some v else ctxLookup rest x

/-- Non-destructive extension of an environment, modelling
`im::HashMap::update`: the original environment is unchanged. -/
def ctxUpdate {α : Type} (ctx : List (String × α)) (k : String) (v : α) :
    List (String × α) :=
  (k, v) :: ctx

/-- `TypeContext` maps term-variable names to types. -/
abbrev TypeContext := List (String × Ty)

/-- The Rust `replace_type`: substitute `to` for every free occurrence
of the type variable `frm`, without any alpha-renaming.  A `Forall`
binding exactly `frm` shadows it; any other `Forall` is traversed with
its binder kept as is. -/
def replace_type (t : Ty) (frm : String) (dst : Ty) : Ty :=
  match t with
  | .Closure param body =>
      .Closure (replace_type param frm dst) (replace_type body frm dst)
  | .Forall param body =>
      if param = frm then .Forall param body
      else .Forall param (replace_type body frm dst)
  | .Var v => if v = frm then dst else .Var v
  | .Int => .Int
  | .Str => .Str

/-- The error conditions on which the Rust `infer` panics, made into an
explicit closed error enum (spec section 7 taxonomy). -/
inductive InferError where
  | UnboundVariable (name : String)
  | TypeMismatch (expected : Ty) (actual : Ty)
  | NotAFunction (t : Ty)
  | NotGeneric (t : Ty)
deriving DecidableEq, Repr

/-- The Rust `infer`: type synthesis.  For `App` the argument's type is
computed first, then the function's, exactly as in the source; a panic
anywhere aborts the whole pass, modelled by error propagation. -/
def infer : Expr → TypeContext → Except InferError Ty
  | .Var v, ctx =>
      match ctxLookup ctx v with
      | some t => .ok t
      | none => .error (.UnboundVariable v)
  | .Abs param paramType body, ctx =>
      match infer body (ctxUpdate ctx param paramType) with
      | .ok tb => .ok (.Closure paramType tb)
      | .error e => .error e
  | .App arg abs, ctx =>
      match infer arg ctx with
      | .error e => .error e
      | .ok targ =>
          match infer abs ctx with
          | .error e => .error e
          | .ok (.Closure param body) =>
              if param = targ then .ok body
              else .error (.TypeMismatch param targ)
          | .ok t => .error (.NotAFunction t)
  | .TypeAbs param body, ctx =>
      match infer body ctx with
      | .ok tb => .ok (.Forall param tb)
      | .error e => .error e
  | .TypeApp arg abs, ctx =>
      match infer abs ctx with
      | .ok (.Forall param body) => .ok (replace_type body param arg)
      | .ok t => .error (.NotGeneric t)
      | .error e => .error e
  | .Int _, _ => .ok .Int

/-- The Rust `Value` enum.  `Native` holds a Rust function pointer; it
is modelled as an index into a host-provided table of native functions
(the table is a parameter of `eval`). -/
inductive Value where
  | Closure (param : String) (body : Expr) (context : List (String × Value))
  | Forall (body : Expr) (context : List (String × Value))
  | Int (i : Int)
  | Native (id : Nat)

/-- `ValueContext` maps term-variable names to runtime values. -/
abbrev ValueContext := List (String × Value)

/-- The runtime failure conditions of the Rust `eval` (spec section 7):
unbound variable, applying a non-callable value, type-applying a
non-`Forall` value, and a native function rejecting its argument. -/
inductive EvalError where
  | UnboundVariable (name : String)
  | NotCallable
  | InvalidTypeApplication
  | PrimitiveMisuse
deriving DecidableEq, Repr

/-- Outcome of running `eval` with a given amount of fuel: a value, a
runtime failure, or fuel exhaustion. -/
inductive Res where
  | ok (v : Value)
  | err (e : EvalError)
  | timeout

/-- A host table of native functions: `none` models the native function
panicking on an argument shape it does not handle. -/
abbrev NativeTable := Nat → Value → Option Value

/-- The Rust `eval`: call-by-value big-step evaluation.  For `App` the
argument is evaluated first under the caller's context, then the
function under the same context; a closure's body runs in the closure's
captured context extended with the parameter (lexical scoping).
`TypeAbs` suspends its body; `TypeApp` ignores its type argument and
forces the suspended body in the captured context. -/
def eval (nv : NativeTable) : Nat → Expr → ValueContext → Res
  | 0, _, _ => .timeout
  | fuel + 1, expr, ctx =>
      match expr with
      | .Var v =>
          match ctxLookup ctx v with
          | some value => .ok value
          | none => .err (.UnboundVariable v)
      | .Abs param _ body => .ok (.Closure param body ctx)
      | .App arg abs =>
          match eval nv fuel arg ctx with
          | .ok argv =>
              match eval nv fuel abs ctx with
              | .ok (.Closure param body cctx) =>
                  eval nv fuel body (ctxUpdate cctx param argv)
              | .ok (.Native id) =>
                  match nv id argv with
                  | some w => .ok w
                  | none => .err .PrimitiveMisuse
              | .ok (.Int _) => .err .NotCallable
              | .ok (.Forall _ _) => .err .NotCallable
              | r => r
          | r => r
      | .TypeAbs _ body => .ok (.Forall body ctx)
      | .TypeApp _ abs =>
          match eval nv fuel abs ctx with
          | .ok (.Forall body cctx) => eval nv fuel body cctx
          | .ok _ => .err .InvalidTypeApplication
          | r => r
      | .Int n => .ok (.Int n)

/-- A host table with no usable natives (every native call fails). -/
def nv0 : NativeTable := fun _ _ => none

/-- `noTypeApp e` holds when the expression contains no `TypeApp`
node anywhere. -/
def noTypeApp : Expr → Bool
  | .Int _ => true
  | .Var _ => true
  | .Abs _ _ body => noTypeApp body
  | .TypeAbs _ body => noTypeApp body
  | .TypeApp _ _ => false
  | .App arg abs => noTypeApp arg && noTypeApp abs

/-- `tyFreeIn x t` holds when the type variable `x` occurs free in the
type `t` (an occurrence under a `Forall` binding `x` is bound). -/
def tyFreeIn (x : String) : Ty → Bool
  | .Closure param body => tyFreeIn x param || tyFreeIn x body
  | .Forall param body => if param = x then false else tyFreeIn x body
  | .Var v => v = x
  | .Int => false
  | .Str => false

/-- A run outcome is safe for the value predicate `P` when a produced
value satisfies `P` and the run is neither the not-callable failure nor
the invalid-type-application failure (any other failure, or running out
of fuel, is allowed). -/
def SafeR (P : Value → Prop) (r : Res) : Prop :=
  (∀ v, r = .ok v → P v) ∧
  r ≠ .err .NotCallable ∧ r ≠ .err .InvalidTypeApplication

/-- Semantic typing of runtime values (a logical relation, by recursion
on the type).  Only a `Closure` type constrains a value: the value must
be a closure whose body runs safely on every semantically-good argument
(at any fuel), or a native function producing semantically-good results.
Types that the `TypeApp`-free fragment never eliminates (`Int`, `Str`,
`Var`, `Forall`) constrain nothing. -/
def GoodV (nv : NativeTable) : Ty → Value → Prop
  | .Closure p b => fun v =>
      match v with
      | .Closure param body cctx =>
          ∀ a, GoodV nv p a → ∀ fuel,
            SafeR (GoodV nv b) (eval nv fuel body (ctxUpdate cctx param a))
      | .Native id =>
          ∀ a, GoodV nv p a → ∀ w, nv id a = some w → GoodV nv b w
      | _ => False
  | _ => fun _ => True

/-- A value context is consistent with a type context when every name
bound in both is bound to a value semantically good for its type. -/
def ConsCtx (nv : NativeTable) (tctx : TypeContext) (vctx : ValueContext) :
    Prop :=
  ∀ x T, ctxLookup tctx x = some T →
    ∀ v, ctxLookup vctx x = some v → GoodV nv T v

/-- The unchecked cast enabled by the non-hygienic `replace_type`:
`castExpr T S = (Λc. λx:c. (Λc. x)[S])[T]`.  The inner `TypeAbs`
accidentally captures the type variable `c` of `x`'s type, so the inner
type application rewrites `x`'s type to `S`; the whole term is inferred
at type `T -> S` although it evaluates to the identity function. -/
def castExpr (t s : Ty) : Expr :=
  .TypeApp t (.TypeAbs "c"
    (.Abs "x" (.Var "c") (.TypeApp s (.TypeAbs "c" (.Var "x")))))

/-- `((castExpr Int (Int -> Int)) 3) 5`: accepted by `infer` at type
`Int`, but at runtime the inner application yields the integer `3`,
which the outer application then tries to call. -/
def badProg : Expr :=
  .App (.Int 5) (.App (.Int 3) (castExpr .Int (.Closure .Int .Int)))

theorem SafeR_ok {P : Value → Prop} {v : Value} (h : P v) : SafeR P (.ok v) := by
  refine ⟨?_, by simp, by simp⟩
  intro w hw
  cases hw
  exact h

theorem SafeR_timeout {P : Value → Prop} : SafeR P .timeout := by
  refine ⟨?_, by simp, by simp⟩
  intro w hw
  cases hw

theorem SafeR_err {P : Value → Prop} {e : EvalError}
    (h1 : e ≠ .NotCallable) (h2 : e ≠ .InvalidTypeApplication) :
    SafeR P (.err e) := by
  refine ⟨?_, by simpa using h1, by simpa using h2⟩
  intro w hw
  cases hw

theorem SafeR_mono_err {P Q : Value → Prop} {e : EvalError}
    (h : SafeR Q (.err e)) : SafeR P (.err e) := by
  refine ⟨?_, h.2.1, h.2.2⟩
  intro w hw
  cases hw

theorem ConsCtx_update {nv : NativeTable} {tctx : TypeContext}
    {vctx : ValueContext} {x : String} {T : Ty} {v : Value}
    (hc : ConsCtx nv tctx vctx) (hv : GoodV nv T v) :
    ConsCtx nv (ctxUpdate tctx x T) (ctxUpdate vctx x v) := by
  intro y S hS w hw
  simp only [ctxUpdate, ctxLookup] at hS hw
  by_cases hxy : x = y
  · simp only [hxy, if_pos rfl] at hS hw
    cases hS; cases hw; exact hv
  · simp only [if_neg hxy] at hS hw
    exact hc y S hS w hw

theorem eval_app_arg_err {nv : NativeTable} {fuel : Nat} {arg abs : Expr}
    {ctx : ValueContext} {e : EvalError} (h : eval nv fuel arg ctx = .err e) :
    eval nv (fuel + 1) (.App arg abs) ctx = .err e := by
  simp [eval, h]

theorem eval_app_arg_timeout {nv : NativeTable} {fuel : Nat} {arg abs : Expr}
    {ctx : ValueContext} (h : eval nv fuel arg ctx = .timeout) :
    eval nv (fuel + 1) (.App arg abs) ctx = .timeout := by
  simp [eval, h]

theorem eval_app_abs_err {nv : NativeTable} {fuel : Nat} {arg abs : Expr}
    {ctx : ValueContext} {a : Value} {e : EvalError}
    (h1 : eval nv fuel arg ctx = .ok a) (h2 : eval nv fuel abs ctx = .err e) :
    eval nv (fuel + 1) (.App arg abs) ctx = .err e := by
  simp [eval, h1, h2]

theorem eval_app_abs_timeout {nv : NativeTable} {fuel : Nat} {arg abs : Expr}
    {ctx : ValueContext} {a : Value}
    (h1 : eval nv fuel arg ctx = .ok a) (h2 : eval nv fuel abs ctx = .timeout) :
    eval nv (fuel + 1) (.App arg abs) ctx = .timeout := by
  simp [eval, h1, h2]

theorem eval_app_closure {nv : NativeTable} {fuel : Nat} {arg abs : Expr}
    {ctx : ValueContext} {a : Value} {p : String} {b : Expr}
    {cctx : ValueContext}
    (h1 : eval nv fuel arg ctx = .ok a)
    (h2 : eval nv fuel abs ctx = .ok (.Closure p b cctx)) :
    eval nv (fuel + 1) (.App arg abs) ctx = eval nv fuel b (ctxUpdate cctx p a) := by
  simp [eval, h1, h2]

theorem eval_app_native {nv : NativeTable} {fuel : Nat} {arg abs : Expr}
    {ctx : ValueContext} {a : Value} {id : Nat}
    (h1 : eval nv fuel arg ctx = .ok a)
    (h2 : eval nv fuel abs ctx = .ok (.Native id)) :
    eval nv (fuel + 1) (.App arg abs) ctx =
      match nv id a with
      | some w => .ok w
      | none => .err .PrimitiveMisuse := by
  simp [eval, h1, h2]

theorem eval_app_int {nv : NativeTable} {fuel : Nat} {arg abs : Expr}
    {ctx : ValueContext} {a : Value} {i : Int}
    (h1 : eval nv fuel arg ctx = .ok a)
    (h2 : eval nv fuel abs ctx = .ok (.Int i)) :
    eval nv (fuel + 1) (.App arg abs) ctx = .err .NotCallable := by
  simp [eval, h1, h2]

theorem eval_app_forall_value {nv : NativeTable} {fuel : Nat} {arg abs : Expr}
    {ctx : ValueContext} {a : Value} {fb : Expr} {fc : ValueContext}
    (h1 : eval nv fuel arg ctx = .ok a)
    (h2 : eval nv fuel abs ctx = .ok (.Forall fb fc)) :
    eval nv (fuel + 1) (.App arg abs) ctx = .err .NotCallable := by
  simp [eval, h1, h2]

theorem GoodV_of_ne_closure {nv : NativeTable} {T : Ty} {v : Value}
    (h : ∀ p b, T ≠ Ty.Closure p b) : GoodV nv T v := by
  cases T with
  | Closure p b => exact absurd rfl (h p b)
  | Forall p b => simp [GoodV]
  | Var x => simp [GoodV]
  | Int => simp [GoodV]
  | Str => simp [GoodV]

theorem GoodV_closure_closure_iff {nv : NativeTable} {p b : Ty}
    {param : String} {body : Expr} {cctx : ValueContext} :
    GoodV nv (.Closure p b) (.Closure param body cctx) ↔
      ∀ a, GoodV nv p a → ∀ fuel,
        SafeR (GoodV nv b) (eval nv fuel body (ctxUpdate cctx param a)) := by
  constructor
  · intro h
    exact h
  · intro h
    exact h

theorem GoodV_closure_native_iff {nv : NativeTable} {p b : Ty} {id : Nat} :
    GoodV nv (.Closure p b) (.Native id) ↔
      ∀ a, GoodV nv p a → ∀ w, nv id a = some w → GoodV nv b w := by
  constructor
  · intro h
    exact h
  · intro h
    exact h

theorem GoodV_closure_int_false {nv : NativeTable} {p b : Ty} {i : Int} :
    ¬ GoodV nv (.Closure p b) (.Int i) := by
  intro h
  exact h

theorem GoodV_closure_forall_false {nv : NativeTable} {p b : Ty} {fb : Expr}
    {fc : ValueContext} : ¬ GoodV nv (.Closure p b) (.Forall fb fc) := by
  intro h
  exact h

/-- C1 (amended): for every `TypeApp`-free expression that `infer`
accepts under a type context, and every value context consistent with
that type context (in the sense of `ConsCtx`), running `eval` with any
amount of fuel never produces the not-callable failure or the
invalid-type-application failure. -/
theorem infer_sound_noTypeApp (nv : NativeTable) :
    ∀ (e : Expr) (tctx : TypeContext) (T : Ty) (vctx : ValueContext)
      (fuel : Nat),
      noTypeApp e = true → infer e tctx = .ok T → ConsCtx nv tctx vctx →
      SafeR (GoodV nv T) (eval nv fuel e vctx) := by
  intro e
  induction e with
  | Int n =>
      intro tctx T vctx fuel _ hI hC
      simp only [infer] at hI
      cases hI
      cases fuel with
      | zero => exact SafeR_timeout
      | succ f => exact SafeR_ok (GoodV_of_ne_closure (by simp))
  | Var x =>
      intro tctx T vctx fuel _ hI hC
      cases hlook : ctxLookup tctx x with
      | none =>
          simp only [infer, hlook] at hI
          cases hI
      | some S =>
          simp only [infer, hlook] at hI
          injection hI with hI2
          subst hI2
          cases fuel with
          | zero => exact SafeR_timeout
          | succ f =>
              cases hv : ctxLookup vctx x with
              | none =>
                  simp only [eval, hv]
                  exact SafeR_err (by simp) (by simp)
              | some v =>
                  simp only [eval, hv]
                  exact SafeR_ok (hC x S hlook v hv)
  | Abs p pt b ih =>
      intro tctx T vctx fuel hN hI hC
      simp only [noTypeApp] at hN
      cases hb : infer b (ctxUpdate tctx p pt) with
      | error e =>
          simp only [infer, hb] at hI
          cases hI
      | ok tb =>
          simp only [infer, hb] at hI
          cases hI
          cases fuel with
          | zero => exact SafeR_timeout
          | succ f =>
              simp only [eval]
              refine SafeR_ok (GoodV_closure_closure_iff.mpr ?_)
              intro a ha fuel2
              exact ih (ctxUpdate tctx p pt) tb (ctxUpdate vctx p a) fuel2
                hN hb (ConsCtx_update hC ha)
  | TypeAbs p b ih =>
      intro tctx T vctx fuel hN hI hC
      cases hb : infer b tctx with
      | error e =>
          simp only [infer, hb] at hI
          cases hI
      | ok tb =>
          simp only [infer, hb] at hI
          cases hI
          cases fuel with
          | zero => exact SafeR_timeout
          | succ f =>
              simp only [eval]
              exact SafeR_ok (GoodV_of_ne_closure (by simp))
  | TypeApp targ abs ih =>
      intro tctx T vctx fuel hN hI hC
      simp only [noTypeApp] at hN
      cases hN
  | App arg abs iha ihb =>
      intro tctx T vctx fuel hN hI hC
      simp only [noTypeApp, Bool.and_eq_true] at hN
      obtain ⟨hNa, hNb⟩ := hN
      cases harg : infer arg tctx with
      | error e =>
          simp only [infer, harg] at hI
          cases hI
      | ok targ =>
      cases habs : infer abs tctx with
      | error e =>
          simp only [infer, harg, habs] at hI
          cases hI
      | ok tabs =>
      cases tabs with
      | Forall fp fb =>
          simp only [infer, harg, habs] at hI
          cases hI
      | Var xv =>
          simp only [infer, harg, habs] at hI
          cases hI
      | Int =>
          simp only [infer, harg, habs] at hI
          cases hI
      | Str =>
          simp only [infer, harg, habs] at hI
          cases hI
      | Closure p b =>
      simp only [infer, harg, habs] at hI
      by_cases hpt : p = targ
      case neg =>
          rw [if_neg hpt] at hI
          cases hI
      case pos =>
      rw [if_pos hpt] at hI
      injection hI with hI2
      subst hI2
      cases fuel with
      | zero => exact SafeR_timeout
      | succ f =>
      have Harg := iha tctx targ vctx f hNa harg hC
      have Habs := ihb tctx (.Closure p b) vctx f hNb habs hC
      cases e1 : eval nv f arg vctx with
      | timeout =>
          rw [eval_app_arg_timeout e1]
          exact SafeR_timeout
      | err e2 =>
          rw [eval_app_arg_err e1]
          rw [e1] at Harg
          exact SafeR_mono_err Harg
      | ok argv =>
      have hGa : GoodV nv targ argv := Harg.1 argv e1
      cases e2 : eval nv f abs vctx with
      | timeout =>
          rw [eval_app_abs_timeout e1 e2]
          exact SafeR_timeout
      | err e3 =>
          rw [eval_app_abs_err e1 e2]
          rw [e2] at Habs
          exact SafeR_mono_err Habs
      | ok absv =>
      have hGb : GoodV nv (.Closure p b) absv := Habs.1 absv e2
      cases absv with
      | Int i => exact absurd hGb GoodV_closure_int_false
      | Forall fb fc => exact absurd hGb GoodV_closure_forall_false
      | Closure cp cb cctx =>
          rw [eval_app_closure e1 e2]
          exact (GoodV_closure_closure_iff.mp hGb) argv (hpt ▸ hGa) f
      | Native id =>
          rw [eval_app_native e1 e2]
          cases e3 : nv id argv with
          | none =>
              simp only [e3]
              exact SafeR_err (by simp) (by simp)
          | some w =>
              simp only [e3]
              exact SafeR_ok ((GoodV_closure_native_iff.mp hGb) argv (hpt ▸ hGa) w e3)

/-- C1 witness: a concrete accepted program evaluated safely under
empty (trivially consistent) contexts. -/
theorem infer_sound_noTypeApp_witness :
    SafeR (GoodV nv0 .Int)
      (eval nv0 10 (.App (.Int 4) (.Abs "x" .Int (.Var "x"))) []) :=
  infer_sound_noTypeApp nv0 (.App (.Int 4) (.Abs "x" .Int (.Var "x")))
    [] .Int [] 10 (by decide) (by rfl)
    (fun x T hT v hv => absurd hT (by simp [ctxLookup]))

/-- C1 counterexample: the closed program `badProg` is accepted by
`infer` at type `Int` under the empty type context, the empty value
context is trivially consistent with the empty type context, and yet
`eval` reaches the not-callable failure: the claim as stated is false
for the full language. -/
theorem infer_accepts_but_eval_not_callable :
    infer badProg [] = .ok .Int ∧ ConsCtx nv0 [] [] ∧
    eval nv0 20 badProg [] = .err .NotCallable := by
  refine ⟨by rfl, ?_, by rfl⟩
  intro x T hT v hv
  exact absurd hT (by simp [ctxLookup])

/-- C2: `infer` on `App{abs, arg}` synthesizes the argument's type
first and the function's second (an argument failure wins over any
function failure); a `Closure{param, body}` function type with `param`
structurally equal to the argument's type yields `body`; a non-closure
function type fails with `NotAFunction`; a closure whose parameter
differs structurally fails with `TypeMismatch` — in particular two
`Forall` types differing only in the bound variable's name mismatch. -/
theorem infer_app_spec (tctx : TypeContext) (arg abs : Expr) :
    (∀ e, infer arg tctx = .error e →
      infer (.App arg abs) tctx = .error e) ∧
    (∀ targ e, infer arg tctx = .ok targ → infer abs tctx = .error e →
      infer (.App arg abs) tctx = .error e) ∧
    (∀ targ p b, infer arg tctx = .ok targ →
      infer abs tctx = .ok (.Closure p b) → p = targ →
      infer (.App arg abs) tctx = .ok b) ∧
    (∀ targ p b, infer arg tctx = .ok targ →
      infer abs tctx = .ok (.Closure p b) → p ≠ targ →
      infer (.App arg abs) tctx = .error (.TypeMismatch p targ)) ∧
    (∀ targ t, infer arg tctx = .ok targ → infer abs tctx = .ok t →
      (∀ p b, t ≠ .Closure p b) →
      infer (.App arg abs) tctx = .error (.NotAFunction t)) ∧
    infer (.App (.TypeAbs "b" (.Int 3)) (.Abs "x" (.Forall "a" .Int) (.Var "x"))) []
      = .error (.TypeMismatch (.Forall "a" .Int) (.Forall "b" .Int)) := by
  refine ⟨?_, ?_, ?_, ?_, ?_, by rfl⟩
  · intro e h
    simp [infer, h]
  · intro targ e h1 h2
    simp [infer, h1, h2]
  · intro targ p b h1 h2 h3
    subst h3
    simp [infer, h1, h2]
  · intro targ p b h1 h2 h3
    simp [infer, h1, h2, h3]
  · intro targ t h1 h2 h3
    cases t with
    | Closure p b => exact absurd rfl (h3 p b)
    | Forall p b => simp [infer, h1, h2]
    | Var v => simp [infer, h1, h2]
    | Int => simp [infer, h1, h2]
    | Str => simp [infer, h1, h2]

/-- C2 witness: the application of the `Int` identity to `4` is typed
at `Int` via the closure conjunct. -/
theorem infer_app_spec_witness :
    infer (.App (.Int 4) (.Abs "x" .Int (.Var "x"))) [] = .ok .Int :=
  (infer_app_spec [] (.Int 4) (.Abs "x" .Int (.Var "x"))).2.2.1
    .Int .Int .Int rfl rfl rfl

/-- C3: `eval` on `App{abs, arg}` evaluates `arg` first under the
caller's context (an argument failure wins), then `abs` under the same
unmodified context; a closure result runs its body in the closure's
captured definition-time context extended with the parameter — never in
the caller's context, as the final concrete conjunct shows (`x` is `2`
at the call site but the closure returns its captured `1`); an `Int` or
`Forall` result is not callable. -/
theorem eval_app_spec (nv : NativeTable) (ctx : ValueContext)
    (arg abs : Expr) (fuel : Nat) :
    (∀ e, eval nv fuel arg ctx = .err e →
      eval nv (fuel + 1) (.App arg abs) ctx = .err e) ∧
    (∀ a e, eval nv fuel arg ctx = .ok a → eval nv fuel abs ctx = .err e →
      eval nv (fuel + 1) (.App arg abs) ctx = .err e) ∧
    (∀ a p b cctx, eval nv fuel arg ctx = .ok a →
      eval nv fuel abs ctx = .ok (.Closure p b cctx) →
      eval nv (fuel + 1) (.App arg abs) ctx =
        eval nv fuel b (ctxUpdate cctx p a)) ∧
    (∀ a i, eval nv fuel arg ctx = .ok a →
      eval nv fuel abs ctx = .ok (.Int i) →
      eval nv (fuel + 1) (.App arg abs) ctx = .err .NotCallable) ∧
    (∀ a fb fc, eval nv fuel arg ctx = .ok a →
      eval nv fuel abs ctx = .ok (.Forall fb fc) →
      eval nv (fuel + 1) (.App arg abs) ctx = .err .NotCallable) ∧
    eval nv 10 (.App (.Int 0) (.Var "g"))
      [("g", .Closure "y" (.Var "x") [("x", .Int 1)]), ("x", .Int 2)]
      = .ok (.Int 1) := by
  refine ⟨?_, ?_, ?_, ?_, ?_, by rfl⟩
  · intro e h
    exact eval_app_arg_err h
  · intro a e h1 h2
    exact eval_app_abs_err h1 h2
  · intro a p b cctx h1 h2
    exact eval_app_closure h1 h2
  · intro a i h1 h2
    exact eval_app_int h1 h2
  · intro a fb fc h1 h2
    exact eval_app_forall_value h1 h2

/-- C3 witness: applying the identity closure steps into its body in
the extended captured context. -/
theorem eval_app_spec_witness :
    eval nv0 6 (.App (.Int 4) (.Abs "x" .Int (.Var "x"))) [] =
      eval nv0 5 (.Var "x") (ctxUpdate [] "x" (.Int 4)) :=
  (eval_app_spec nv0 [] (.Int 4) (.Abs "x" .Int (.Var "x")) 5).2.2.1
    (.Int 4) "x" (.Var "x") [] rfl rfl

/-- C4: `infer` on `TypeApp{abs, arg}` returns
`replace_type body param arg` when `abs` infers to
`Forall{param, body}`, fails with `NotGeneric` on any non-`Forall`
inferred type, and accepts the type argument `arg` unconditionally (no
hypothesis about `arg` is needed anywhere). -/
theorem infer_typeapp_spec (tctx : TypeContext) (abs : Expr) (arg : Ty) :
    (∀ p b, infer abs tctx = .ok (.Forall p b) →
      infer (.TypeApp arg abs) tctx = .ok (replace_type b p arg)) ∧
    (∀ t, infer abs tctx = .ok t → (∀ p b, t ≠ .Forall p b) →
      infer (.TypeApp arg abs) tctx = .error (.NotGeneric t)) ∧
    (∀ e, infer abs tctx = .error e →
      infer (.TypeApp arg abs) tctx = .error e) := by
  refine ⟨?_, ?_, ?_⟩
  · intro p b h
    simp [infer, h]
  · intro t h hne
    cases t with
    | Forall p b => exact absurd rfl (hne p b)
    | Closure p b => simp [infer, h]
    | Var v => simp [infer, h]
    | Int => simp [infer, h]
    | Str => simp [infer, h]
  · intro e h
    simp [infer, h]

/-- C4 witness: the generic identity type-applied at the unchecked,
unbound type variable `zzz` is accepted. -/
theorem infer_typeapp_spec_witness :
    infer (.TypeApp (.Var "zzz") (.TypeAbs "a" (.Abs "x" (.Var "a") (.Var "x")))) []
      = .ok (.Closure (.Var "zzz") (.Var "zzz")) :=
  (infer_typeapp_spec [] (.TypeAbs "a" (.Abs "x" (.Var "a") (.Var "x"))) (.Var "zzz")).1
    "a" (.Closure (.Var "a") (.Var "a")) rfl

/-- C5: substitution on the base cases: replacing `n` in `Var(n)`
yields the replacement; replacing a different name leaves `Var(n)`;
a `Forall` binding the substituted name shadows it and is returned
unchanged; `Int` is always unchanged. -/
theorem replace_type_spec :
    (∀ (n : String) (U : Ty), replace_type (.Var n) n U = U) ∧
    (∀ (n m : String) (U : Ty), m ≠ n →
      replace_type (.Var n) m U = .Var n) ∧
    (∀ (n : String) (B U : Ty),
      replace_type (.Forall n B) n U = .Forall n B) ∧
    (∀ (frm : String) (dst : Ty), replace_type .Int frm dst = .Int) := by
  refine ⟨?_, ?_, ?_, ?_⟩
  · intro n U
    simp [replace_type]
  · intro n m U h
    have hnm : ¬ (n = m) := fun hh => h hh.symm
    simp [replace_type, hnm]
  · intro n B U
    simp [replace_type]
  · intro frm dst
    simp [replace_type]

/-- C5 witness: replacing `b` inside `Var(a)` leaves it unchanged. -/
theorem replace_type_spec_witness :
    replace_type (.Var "a") "b" .Int = .Var "a" :=
  replace_type_spec.2.1 "a" "b" .Int (by decide)

/-- C6: on a `Forall` whose binder differs from the substituted name,
`replace_type` recurses into the body without renaming the binder, so a
free occurrence of the binder's name in the replacement becomes bound
in the result (variable capture): concretely,
`replace(Forall{p, Var(frm)}, frm, Var(p)) = Forall{p, Var(p)}`, and
`p` is never free in the substituted result. -/
theorem replace_type_capture_spec (p frm : String) (B dst : Ty)
    (h : p ≠ frm) :
    replace_type (.Forall p B) frm dst
      = .Forall p (replace_type B frm dst) ∧
    replace_type (.Forall p (.Var frm)) frm (.Var p) = .Forall p (.Var p) ∧
    tyFreeIn p (replace_type (.Forall p B) frm dst) = false := by
  have hpf : ¬ (p = frm) := h
  refine ⟨by simp [replace_type, hpf], ?_, ?_⟩
  · simp [replace_type, hpf]
  · simp [replace_type, hpf, tyFreeIn]

/-- C6 witness: substituting `Var(b)` for `a` under `Forall b` captures
the variable. -/
theorem replace_type_capture_spec_witness :
    replace_type (.Forall "b" (.Var "a")) "a" (.Var "b")
      = .Forall "b" (.Var "b") :=
  (replace_type_capture_spec "b" "a" (.Var "a") (.Var "b") (by decide)).2.1

/-- C7: the runtime outcome of a type application is identical for any
two type arguments: `eval` never consults the type argument of a
`TypeApp` node. -/
theorem eval_typeapp_erasure (nv : NativeTable) (fuel : Nat) (e : Expr)
    (ctx : ValueContext) (T1 T2 : Ty) :
    eval nv fuel (.TypeApp T1 e) ctx = eval nv fuel (.TypeApp T2 e) ctx := by
  cases fuel with
  | zero => rfl
  | succ f => rfl

/-- C8: a `Var` fails with `UnboundVariable` in the type checker
exactly when the name is absent from the type context, and otherwise
returns the bound type unchanged; the evaluator behaves the same over
the value context. -/
theorem var_lookup_spec (nv : NativeTable) (tctx : TypeContext)
    (vctx : ValueContext) (x : String) (fuel : Nat) :
    ((infer (.Var x) tctx = .error (.UnboundVariable x)) ↔
      ctxLookup tctx x = none) ∧
    (∀ T, ctxLookup tctx x = some T → infer (.Var x) tctx = .ok T) ∧
    ((eval nv (fuel + 1) (.Var x) vctx = .err (.UnboundVariable x)) ↔
      ctxLookup vctx x = none) ∧
    (∀ v, ctxLookup vctx x = some v →
      eval nv (fuel + 1) (.Var x) vctx = .ok v) := by
  refine ⟨?_, ?_, ?_, ?_⟩
  · cases h : ctxLookup tctx x with
    | none => simp [infer, h]
    | some t => simp [infer, h]
  · intro T h
    simp [infer, h]
  · cases h : ctxLookup vctx x with
    | none => simp [eval, h]
    | some v => simp [eval, h]
  · intro v h
    simp [eval, h]

/-- C8 witness: bound variables are returned unchanged by both
algorithms. -/
theorem var_lookup_spec_witness :
    infer (.Var "x") [("x", Ty.Int)] = .ok .Int ∧
    eval nv0 1 (.Var "x") [("x", Value.Int 7)] = .ok (.Int 7) :=
  ⟨(var_lookup_spec nv0 [("x", Ty.Int)] [("x", Value.Int 7)] "x" 0).2.1 .Int rfl,
   (var_lookup_spec nv0 [("x", Ty.Int)] [("x", Value.Int 7)] "x" 0).2.2.2
     (.Int 7) rfl⟩

/-- C9: the evaluator discards the type annotation on a function
binder: evaluating an `Abs` gives the same result for any two
annotations. -/
theorem eval_abs_ignores_annotation (nv : NativeTable) (fuel : Nat)
    (p : String) (T1 T2 : Ty) (b : Expr) (ctx : ValueContext) :
    eval nv fuel (.Abs p T1 b) ctx = eval nv fuel (.Abs p T2 b) ctx := by
  cases fuel with
  | zero => rfl
  | succ f => rfl

/-- C10: the type grammar's fifth constructor `Str` is a base type:
substitution leaves it unchanged, it is structurally unequal to `Int`,
and an application whose declared parameter type is `Str` applied to an
`Int`-typed argument fails with `TypeMismatch`. -/
theorem str_type_spec :
    (∀ (frm : String) (dst : Ty), replace_type .Str frm dst = .Str) ∧
    Ty.Str ≠ Ty.Int ∧
    (∀ (tctx : TypeContext) (p : String) (body arg : Expr) (tb : Ty),
      infer arg tctx = .ok .Int →
      infer body (ctxUpdate tctx p .Str) = .ok tb →
      infer (.App arg (.Abs p .Str body)) tctx =
        .error (.TypeMismatch .Str .Int)) := by
  refine ⟨?_, by decide, ?_⟩
  · intro frm dst
    simp [replace_type]
  · intro tctx p body arg tb h1 h2
    simp [infer, h1, h2]

/-- C10 witness: the identity annotated at `Str` applied to `Int(4)`
is rejected with `TypeMismatch(Str, Int)` (spec scenario 2). -/
theorem str_type_spec_witness :
    infer (.App (.Int 4) (.Abs "x" .Str (.Var "x"))) [] =
      .error (.TypeMismatch .Str .Int) :=
  str_type_spec.2.2 [] "x" (.Var "x") (.Int 4) .Str rfl rfl
